import Mathlib

/-!
Shallow embedding of the approval-gated video generation pipeline of the
repository (Python sources under app/). Each definition is translated from
the named source function; theorems settle the frozen claims about the
segment fan-out, the audio duration matcher, the compression planner, the
pipeline orchestration, the approval store and the script splitter.
-/

namespace VideoBot

/-- Translated from app/models/video_job.py, class SegmentStatus. -/
inductive SegmentStatus
  | pending
  | generating_image
  | image_ready
  | animating
  | video_ready
  | failed
deriving DecidableEq, Repr

/-- Translated from app/models/video_job.py, class JobStatus. -/
inductive JobStatus
  | pending
  | generating_script
  | awaiting_script_approval
  | script_approved
  | generating_images
  | awaiting_images_approval
  | images_approved
  | animating_videos
  | awaiting_videos_approval
  | videos_approved
  | generating_audio
  | assembling_video
  | completed
  | cancelled
  | failed
deriving DecidableEq, Repr

/-! ## Segment fan-out (app/services/video_service.py)

The three batch methods generate_all_segments, generate_images_only and
animate_images_only share one fan-out/fan-in body: submit one unit of work
per input segment to a thread pool, append one result entry per completed
future (a successful segment, or a FAILED entry carrying the same index
when the future raised), sort the collected list by index, and reject the
batch when the failed count exceeds 20 percent of the input size.

The external generation call is the only effect inside a unit of work, so a
segment input is modelled by its index together with the outcome of that
call (ok = true when the per-segment work succeeds, ok = false when the
future raises). The nondeterministic completion order of as_completed is an
explicit parameter: any permutation of the submission list. -/

/-- One submitted segment: its index and whether its unit of work succeeds. -/
structure ScriptSegIn where
  index : Nat
  ok : Bool
deriving DecidableEq, Repr

/-- One collected result entry, as appended by the as_completed loop. -/
structure VideoSeg where
  index : Nat
  status : SegmentStatus
deriving DecidableEq, Repr

/-- Sort relation of video_segments.sort(key=lambda x: x.index). Python
list.sort is a stable sort by the key; it is modelled by the stable
insertion sort under this relation. -/
def segLeR (a b : VideoSeg) : Prop := a.index ≤ b.index

instance : DecidableRel segLeR :=
  fun a b => inferInstanceAs (Decidable (a.index ≤ b.index))

instance : IsTotal VideoSeg segLeR := ⟨fun a b => Nat.le_total a.index b.index⟩

instance : IsTrans VideoSeg segLeR := ⟨fun _ _ _ => Nat.le_trans⟩

/-- Common body of the three fan-out methods of app/services/video_service.py
(lines 89-167, 204-282, 319-393): collect one entry per future in completion
order, sort by index, then raise iff len(failed) > len(segments) * 0.2.
The Python threshold multiplies by the IEEE double closest to 0.2; for every
batch size below 2^50 that float comparison coincides with the exact rational
test 5 * failed > len(segments), which is how the guard is modelled. -/
def fanOut (success : SegmentStatus) (segments order : List ScriptSegIn) :
    Except String (List VideoSeg) :=
  let collected := order.map (fun s => VideoSeg.mk s.index (if s.ok then success else .failed))
  let failedCount := order.countP (fun s => !s.ok)
  let sorted := List.insertionSort segLeR collected
  if 5 * failedCount > segments.length then
    .error "Too many segments failed"
  else
    .ok sorted

/-- VideoService.generate_all_segments: image plus animation per segment,
successful entries end in status VIDEO_READY. -/
def generate_all_segments (segments order : List ScriptSegIn) :
    Except String (List VideoSeg) :=
  fanOut .video_ready segments order

/-- VideoService.generate_images_only: successful entries end IMAGE_READY. -/
def generate_images_only (segments order : List ScriptSegIn) :
    Except String (List VideoSeg) :=
  fanOut .image_ready segments order

/-- VideoService.animate_images_only: successful entries end VIDEO_READY. -/
def animate_images_only (segments order : List ScriptSegIn) :
    Except String (List VideoSeg) :=
  fanOut .video_ready segments order

/-- Concrete 48-segment batch in which the segments with index below k fail;
used to exercise the acceptance boundary of the fan-out. -/
def c1Batch (k : Nat) : List ScriptSegIn :=
  (List.range 48).map (fun i => ScriptSegIn.mk i (decide (k ≤ i)))

/-! ## Audio duration matcher (app/services/audio_service.py)

AudioService.adjust_audio_duration computes speed_factor =
current_duration / target_duration and chains atempo filter steps so that
every emitted step lies in the valid range of the transform. The float
operations involved (comparison with 2.0, 0.5, 1.0; division by 2.0 and by
0.5) are exact on IEEE doubles, so the loops are modelled over exact
rationals. The Python while loops are modelled with explicit fuel; the fuel
passed below is proved sufficient for every positive factor
(halveLoop_eq_spec, doubleLoop_eq_spec), so it never alters the value. -/

/-- First chaining loop of adjust_audio_duration (lines 191-193): while
remaining_factor > 2.0, append an atempo=2.0 step and divide the factor by
2.0. -/
def halveLoop : Nat → ℚ → List ℚ × ℚ
  | 0, f => ([], f)
  | fuel + 1, f =>
    if 2 < f then
      let r := halveLoop fuel (f / 2)
      (2 :: r.1, r.2)
    else ([], f)

/-- Second chaining loop of adjust_audio_duration (lines 195-197): while
remaining_factor < 0.5, append an atempo=0.5 step and divide the factor by
0.5. -/
def doubleLoop : Nat → ℚ → List ℚ × ℚ
  | 0, f => ([], f)
  | fuel + 1, f =>
    if f < 1/2 then
      let r := doubleLoop fuel (f / (1/2))
      ((1/2) :: r.1, r.2)
    else ([], f)

/-- Filter chain emitted by adjust_audio_duration (lines 188-204) for a
speed factor: the two chaining loops, then the final atempo step at the
remaining factor when it differs from 1.0 (the source additionally formats
that last value with six decimal places when serializing the CLI string; the
numeric chain itself is modelled exactly). -/
def atempo_filters (speed_factor : ℚ) : List ℚ :=
  let h := halveLoop speed_factor.num.toNat speed_factor
  let d := doubleLoop h.2.den h.2
  h.1 ++ d.1 ++ (if d.2 ≠ 1 then [d.2] else [])

/-- adjust_audio_duration (line 182): speed_factor = current / target. -/
def adjust_audio_filters (current_duration target_duration : ℚ) : List ℚ :=
  atempo_filters (current_duration / target_duration)

/-- Tolerance gate of AudioService.generate_audio (line 99): the duration is
adjusted only when abs(actual - target) > 1.0; otherwise the raw audio file
is kept unchanged (pass-through). -/
def generate_audio_adjusts (actual target : ℚ) : Bool :=
  decide (1 < |actual - target|)

/-- Ceiling of a rational strictly above 2 strictly drops when halving;
termination measure for both spec loops. -/
lemma ceil_half_lt (q : ℚ) (hq : 2 < q) : ⌈q / 2⌉₊ < ⌈q⌉₊ := by
  have h2 : 2 < ⌈q⌉₊ := Nat.lt_ceil.mpr (by exact_mod_cast hq)
  have hle : ⌈q / 2⌉₊ ≤ ⌈q⌉₊ - 1 := by
    apply Nat.ceil_le.mpr
    have h1 : (1:ℕ) ≤ ⌈q⌉₊ := by omega
    have hcast : ((⌈q⌉₊ - 1 : ℕ) : ℚ) = (⌈q⌉₊ : ℚ) - 1 := by
      push_cast [Nat.cast_sub h1]
      ring
    rw [hcast]
    have hq' := Nat.le_ceil q
    linarith
  omega

/-- Modelled from the spec (section 4.4): while factor > 2.0, apply a 2.0
step and divide factor by 2.0. -/
def specHalve (f : ℚ) : List ℚ × ℚ :=
  if h : 2 < f then
    let r := specHalve (f / 2)
    (2 :: r.1, r.2)
  else ([], f)
termination_by ⌈f⌉₊
decreasing_by exact ceil_half_lt f h

/-- Modelled from the spec (section 4.4): while factor < 0.5, apply a 0.5
step and divide factor by 0.5. The spec loop does not terminate on
nonpositive factors (which the claim excludes via A, T > 0); the 0 < f
conjunct restricts the definition to the domain where the spec loop is
defined, and coincides with the spec condition there. -/
def specDouble (f : ℚ) : List ℚ × ℚ :=
  if h : 0 < f ∧ f < 1/2 then
    let r := specDouble (f / (1/2))
    ((1/2) :: r.1, r.2)
  else ([], f)
termination_by ⌈f⁻¹⌉₊
decreasing_by
  have hrw : (f / (1/2))⁻¹ = f⁻¹ / 2 := by
    field_simp
  rw [hrw]
  apply ceil_half_lt
  have h2 : (f⁻¹ : ℚ) = 1 / f := by ring
  rw [h2, lt_div_iff₀ h.1]
  linarith [h.2]

/-- Modelled from the spec (section 4.4): the ordered tempo-step list
obtained from a factor: chained 2.0 steps, then chained 0.5 steps, then the
remaining factor if it differs from 1.0. -/
def specTempoSteps (f : ℚ) : List ℚ :=
  let h := specHalve f
  let d := specDouble h.2
  h.1 ++ d.1 ++ (if d.2 ≠ 1 then [d.2] else [])

/-! ## Compression planner (app/utils/ffmpeg.py, compress_video) -/

/-- Python int() conversion applied to a numeric value: truncation toward
zero. -/
def pyInt (q : ℚ) : ℤ := if q < 0 then -⌊-q⌋ else ⌊q⌋

/-- Target video bitrate computed by FFmpegUtil.compress_video (lines
218-224): target = int((max_size_mb * 8192) / duration) - 128, then clamped
from below: target = max(target, 500). The float quotient is modelled as
the exact rational quotient, on which the surrounding comparisons agree for
all sizes and durations in range. -/
def compress_target_bitrate (max_size_mb : ℕ) (duration : ℚ) : ℤ :=
  let target_bitrate := pyInt (((max_size_mb : ℚ) * 8192) / duration) - 128
  max target_bitrate 500

/-! ## Final assembly (app/tasks/video_generation.py, _assemble_final_video,
and app/utils/ffmpeg.py, compress_video lines 242-248)

The function concatenates the segment videos sorted by index, muxes the
audio, and when the muxed file strictly exceeds Config.MAX_VIDEO_SIZE_MB
calls compress_video exactly once and returns the compressed path.
compress_video reads the size of its output only to log it; neither
function re-checks the compressed size, raises on an oversized result, or
retries with a lower bitrate. The encoder effects are summarized by the
observable file sizes. -/

/-- Which file path _assemble_final_video returns. -/
inductive AsmOutput
  | finalVideo
  | compressedVideo
deriving DecidableEq, Repr

/-- Observable data of one assembly run: whether any segment carries a video
asset, the size of the muxed file, the size of the file produced by the
single compress_video call (when taken), and the configured maximum size. -/
structure AssemblyEnv where
  has_video_paths : Bool
  final_size_mb : ℚ
  compressed_size_mb : ℚ
  max_video_size_mb : ℚ

/-- Translated from _assemble_final_video (lines 783-817): raise when no
segment has a video asset; compress exactly once iff file_size_mb >
Config.MAX_VIDEO_SIZE_MB; return the chosen path with the number of
compress_video invocations. The compressed size is never consulted. -/
def assemble_final_video (env : AssemblyEnv) : Except String (AsmOutput × ℕ) :=
  if env.has_video_paths = false then
    .error "No video segments available for assembly"
  else if env.max_video_size_mb < env.final_size_mb then
    .ok (.compressedVideo, 1)
  else
    .ok (.finalVideo, 0)

/-! ## Pipeline task (app/tasks/video_generation.py, generate_video_task)

The Celery task is a straight-line orchestration whose external calls
(OpenAI, Runway, Telegram, FFmpeg, the database) appear here as trace
actions, with the decision-relevant outcomes (the three approval waits and
the per-batch failure counts) supplied by an environment. Stage 0 (voice
transcription), the database bookkeeping and the metrics dictionary carry
no control flow for the settled claims and are omitted from the trace. The
batches raise iff their failure count exceeds 20 percent of the batch (the
fanOut model above); that condition is summarized here by the counts. -/

/-- Externally visible actions of one task run, in program order. -/
inductive Action
  | notify_status (s : JobStatus)
  | notify_error
  | gen_script
  | gen_images
  | animate
  | gen_audio
  | assemble
  | send_final_video
  | cleanup
deriving DecidableEq, Repr

/-- Exceptions reaching the outer try/except of the task, as relevant to
the claims. -/
inductive PyExc
  | unbound_local_total_duration
  | batch_failure_threshold
deriving DecidableEq, Repr

/-- How the task run ends: the dict return value for the completed and
cancelled paths, or an exception propagated to the retry logic. -/
inductive TaskOutcome
  | completed
  | cancelled (stage : String)
  | error_raised (e : PyExc)
deriving DecidableEq, Repr

/-- Decision-relevant outcomes of the external calls of one run. -/
structure TaskEnv where
  script_approved : Bool
  images_approved : Bool
  videos_approved : Bool
  n_segments : ℕ
  image_failures : ℕ
  anim_failures : ℕ
deriving DecidableEq, Repr

/-- Translated from generate_video_task (lines 129-556). Each approval
rejection or timeout runs _handle_cancellation (lines 824-842: one
cleanup_job call, the CANCELLED status notification, the error message) and
returns the cancelled dict. A batch whose failures exceed the threshold
raises, reaching the outer except branch (lines 516-556: error
notification, best-effort cleanup, retry or re-raise). On the success path
the local variable total_duration is first assigned at line 496, yet line
474 evaluates int(total_duration) while sending the final video, so the
send raises UnboundLocalError; the Python local is modelled by an Option
that is still none when stage 9 reads it. -/
def generate_video_task (env : TaskEnv) : TaskOutcome × List Action :=
  let total_duration : Option ℚ := none
  let tr2 := [Action.notify_status .generating_script, Action.gen_script,
    Action.notify_status .awaiting_script_approval]
  if env.script_approved = false then
    (.cancelled "script_approval",
      tr2 ++ [Action.cleanup, Action.notify_status .cancelled, Action.notify_error])
  else
    let tr3 := tr2 ++ [Action.notify_status .script_approved,
      Action.notify_status .generating_images, Action.gen_images]
    if 5 * env.image_failures > env.n_segments then
      (.error_raised .batch_failure_threshold, tr3 ++ [Action.notify_error, Action.cleanup])
    else
      let tr4 := tr3 ++ [Action.notify_status .awaiting_images_approval]
      if env.images_approved = false then
        (.cancelled "images_approval",
          tr4 ++ [Action.cleanup, Action.notify_status .cancelled, Action.notify_error])
      else
        let tr5 := tr4 ++ [Action.notify_status .images_approved,
          Action.notify_status .animating_videos, Action.animate]
        if 5 * env.anim_failures > env.n_segments then
          (.error_raised .batch_failure_threshold, tr5 ++ [Action.notify_error, Action.cleanup])
        else
          let tr6 := tr5 ++ [Action.notify_status .awaiting_videos_approval]
          if env.videos_approved = false then
            (.cancelled "videos_approval",
              tr6 ++ [Action.cleanup, Action.notify_status .cancelled, Action.notify_error])
          else
            let tr7 := tr6 ++ [Action.notify_status .videos_approved,
              Action.notify_status .generating_audio, Action.gen_audio,
              Action.notify_status .assembling_video, Action.assemble]
            match total_duration with
            | none =>
              (.error_raised .unbound_local_total_duration,
                tr7 ++ [Action.notify_error, Action.cleanup])
            | some _ =>
              (.completed,
                tr7 ++ [Action.send_final_video, Action.notify_status .completed,
                  Action.cleanup])

/-! ## Approval store and polling wait (app/services/approval_service.py)

ApprovalManager stores rows (job_id, approval_type, status, expires_at) in
PostgreSQL. Both read paths filter with expires_at > now, so a record whose
expiry is not strictly later than the current time is invisible to reads.
Timestamps are modelled as rationals, the table as a list of rows, and the
first() call of the query as List.find? over that list. -/

/-- One row of the approval_statuses table. -/
structure ApprovalRec where
  job_id : String
  approval_type : String
  status : String
  expires_at : ℚ
deriving DecidableEq, Repr

/-- Query shared by wait_for_approval (lines 131-135) and is_approved
(lines 251-255): the first record of the table matching the job and type
whose expires_at is strictly later than the current time. -/
def queryApproval (store : List ApprovalRec) (job ty : String) (now : ℚ) :
    Option ApprovalRec :=
  store.find? (fun r =>
    decide (r.job_id = job ∧ r.approval_type = ty ∧ now < r.expires_at))

/-- ApprovalManager.is_approved (lines 239-270): some true when the visible
record is approved, some false when cancelled, none when no non-expired
record exists (or its status is neither value). -/
def is_approved (store : List ApprovalRec) (job ty : String) (now : ℚ) :
    Option Bool :=
  match queryApproval store job ty now with
  | none => none
  | some r =>
    if r.status = "approved" then some true
    else if r.status = "cancelled" then some false
    else none

/-- One iteration of the polling loop of wait_for_approval observes the
elapsed wall time, the current clock and the table contents. -/
structure PollObs where
  elapsed : ℚ
  now : ℚ
  store : List ApprovalRec
deriving DecidableEq, Repr

/-- ApprovalManager.wait_for_approval (lines 89-157): each loop iteration
first returns False when elapsed ≥ timeout, then queries the visible
record: approved returns True, cancelled returns False, anything else
sleeps and polls again. One PollObs per iteration; in the running system
the elapsed clock grows without bound so the timeout check eventually
fires, which is what the empty-trace value False stands for. -/
def wait_for_approval (timeout : ℚ) (job ty : String) : List PollObs → Bool
  | [] => false
  | o :: rest =>
    if timeout ≤ o.elapsed then false
    else
      match queryApproval o.store job ty o.now with
      | some r =>
        if r.status = "approved" then true
        else if r.status = "cancelled" then false
        else wait_for_approval timeout job ty rest
      | none => wait_for_approval timeout job ty rest

/-- Removing every record the reads treat as absent (expires_at ≤ now). -/
def purgeExpiredReads (now : ℚ) (store : List ApprovalRec) : List ApprovalRec :=
  store.filter (fun r => decide (now < r.expires_at))

/-! ## Script splitter (app/services/script_service.py)

ScriptService.split_script strips the script, chunks it with
_split_into_chunks, and builds num_segments = target_duration //
segment_duration timed segments carrying generated prompts. Text is
modelled as List Char. The padding while loop of _split_into_chunks (lines
116-119) extends the chunk list with a slice of itself and therefore makes
no progress when the list is empty; the embedding returns none exactly for
the diverging runs and some result for the terminating ones. -/

/-- Whitespace stripped by the Python str.strip default (ASCII subset
exercised by the sources). -/
def pyIsSpace (c : Char) : Bool :=
  (c == ' ') || (c == '\t') || (c == '\n') || (c == '\r') ||
  (c == Char.ofNat 11) || (c == Char.ofNat 12)

/-- Python str.strip(): drop leading and trailing whitespace. -/
def pyStrip (s : List Char) : List Char :=
  ((s.dropWhile pyIsSpace).reverse.dropWhile pyIsSpace).reverse

/-- Sentence delimiters of the regex [.!?]+ (line 99). -/
def isDelim (c : Char) : Bool := (c == '.') || (c == '!') || (c == '?')

/-- re.split with pattern [.!?]+ (line 99): fields separated by maximal
delimiter runs; leading and trailing runs yield empty fields, and splitting
the empty string yields one empty field. The recursion consumes at least
one character per emitted field, so fuel equal to the length of the string
never runs out (splitDelimRunsF_invariant below); the zero-fuel fallback is
unreachable from splitDelimRuns. -/
def splitDelimRunsF : Nat → List Char → List (List Char)
  | 0, s => [s.takeWhile (fun c => !(isDelim c))]
  | fuel + 1, s =>
    let field := s.takeWhile (fun c => !(isDelim c))
    let rest := s.dropWhile (fun c => !(isDelim c))
    if rest.isEmpty then [field]
    else field :: splitDelimRunsF fuel (rest.dropWhile isDelim)

def splitDelimRuns (s : List Char) : List (List Char) :=
  splitDelimRunsF s.length s

/-- Python str.split(sep) with a one-character separator: split at every
occurrence, keeping empty fields. -/
def splitChar (sep : Char) : List Char → List (List Char)
  | [] => [[]]
  | c :: cs =>
    if c == sep then [] :: splitChar sep cs
    else
      match splitChar sep cs with
      | [] => [[c]]
      | f :: r => (c :: f) :: r

/-- Python substring containment (the in operator on str). -/
def isSubstringOf (pat : List Char) : List Char → Bool
  | [] => pat.isEmpty
  | c :: cs => pat.isPrefixOf (c :: cs) || isSubstringOf pat cs

/-- Chunk computation of _split_into_chunks (lines 98-113), before the
padding loop: split into sentences, strip and keep the non-empty ones; when
fewer than num_segments // 2 chunks result, rebuild from the raw sentence
fields by newline split, comma split (only for fields over 100 characters),
or the stripped field itself. -/
def computeChunks (num_segments : Nat) (script : List Char) : List (List Char) :=
  let sentences := splitDelimRuns script
  let chunks := (sentences.map pyStrip).filter (fun c => !c.isEmpty)
  if chunks.length < num_segments / 2 then
    sentences.foldl (fun acc sentence =>
      if sentence.contains '\n' then
        acc ++ ((splitChar '\n' sentence).map pyStrip).filter (fun c => !c.isEmpty)
      else if sentence.contains ',' && decide (sentence.length > 100) then
        acc ++ ((splitChar ',' sentence).map pyStrip).filter (fun c => !c.isEmpty)
      else if !(pyStrip sentence).isEmpty then
        acc ++ [pyStrip sentence]
      else acc) []
  else chunks

/-- Padding while loop of _split_into_chunks (lines 116-119): while
len(chunks) < num_segments, extend chunks with chunks[:num_segments -
len(chunks)]. Each terminating iteration appends at least one element, so
fuel num_segments suffices whenever the loop terminates (padChunksF_some);
with an empty chunk list and a positive target the loop appends nothing and
never terminates, which the embedding reports as none. -/
def padChunksF {α : Type} : Nat → Nat → List α → Option (List α)
  | 0, n, chunks => if chunks.length < n then none else some chunks
  | fuel + 1, n, chunks =>
    if chunks.length < n then
      if chunks.isEmpty then none
      else padChunksF fuel n (chunks ++ chunks.take (n - chunks.length))
    else some chunks

def padChunks {α : Type} (n : Nat) (chunks : List α) : Option (List α) :=
  padChunksF n n chunks

/-- ScriptService.generate_image_prompt (lines 123-147). -/
def generate_image_prompt (segment_text : List Char) : List Char :=
  ("Professional advertising image: ".toList) ++ segment_text.take 200 ++
  (" | Cinematic lighting, high quality, 4K resolution, professional photography, vibrant colors, sharp focus".toList)

/-- Motion keyword table of generate_animation_prompt (lines 165-176), in
the insertion order the Python dict iterates in. -/
def motion_keywords : List (List Char × List Char) :=
  [("move".toList, "smooth camera movement".toList),
   ("fly".toList, "flying motion".toList),
   ("zoom".toList, "zoom in effect".toList),
   ("rotate".toList, "rotating motion".toList),
   ("pan".toList, "panning camera".toList),
   ("reveal".toList, "revealing motion".toList),
   ("show".toList, "slow reveal".toList),
   ("appear".toList, "fade in effect".toList),
   ("fast".toList, "dynamic fast motion".toList),
   ("slow".toList, "slow smooth motion".toList)]

/-- ScriptService.generate_animation_prompt (lines 149-194): the first
keyword contained in the lowercased text selects the style, with a default
otherwise. -/
def generate_animation_prompt (segment_text : List Char) : List Char :=
  let text_lower := segment_text.map Char.toLower
  let animation_style :=
    match motion_keywords.find? (fun kv => isSubstringOf kv.1 text_lower) with
    | some kv => kv.2
    | none => "smooth cinematic motion".toList
  ("Animate with ".toList) ++ animation_style ++
    (", subtle movement, professional quality, 5 seconds duration, seamless loop".toList)

/-- Translated from app/models/video_job.py, class ScriptSegment. -/
structure ScriptSegment where
  index : Nat
  text : List Char
  start_time : Nat
  end_time : Nat
  image_prompt : List Char
  animation_prompt : List Char
deriving DecidableEq, Repr

/-- Loop body of split_script (lines 56-84): timing, chunk slice (Python
slice semantics chunks[start:end] coincide for the nonnegative indices in
play with (drop start).take (end - start) under truncated subtraction),
fallback text for empty slices, and the generated prompts for segment i. -/
def buildSegment (segment_duration num_segments : Nat) (chunks : List (List Char))
    (i : Nat) : ScriptSegment :=
  let chunks_per_segment := max 1 (chunks.length / num_segments)
  let start_time := i * segment_duration
  let end_time := start_time + segment_duration
  let start_idx := i * chunks_per_segment
  let end_idx := if i < num_segments - 1 then start_idx + chunks_per_segment
    else chunks.length
  let joined := List.intercalate ([' ']) ((chunks.drop start_idx).take (end_idx - start_idx))
  let segment_text := if joined.isEmpty && !chunks.isEmpty then
      chunks.getD (min i (chunks.length - 1)) []
    else joined
  ScriptSegment.mk i segment_text start_time end_time
    (generate_image_prompt segment_text) (generate_animation_prompt segment_text)

/-- ScriptService.split_script (lines 33-86): num_segments =
target_duration // segment_duration (line 31); strip, chunk, pad, then one
buildSegment per index of range num_segments. none stands for the diverging
padding loop. -/
def split_script (target_duration segment_duration : Nat) (script : List Char) :
    Option (List ScriptSegment) :=
  let num_segments := target_duration / segment_duration
  let script := pyStrip script
  match padChunks num_segments (computeChunks num_segments script) with
  | none => none
  | some chunks =>
    some ((List.range num_segments).map
      (buildSegment segment_duration num_segments chunks))

/-! ## DEFINITIONS-END -/

/-- The fan-out raises the fatal batch error iff the failure count of the
batch strictly exceeds 20 percent of the batch size. -/
lemma fanOut_error_iff (success : SegmentStatus) (segments order : List ScriptSegIn)
    (hperm : order.Perm segments) :
    (∃ e, fanOut success segments order = .error e) ↔
      5 * segments.countP (fun s => !s.ok) > segments.length := by
  unfold fanOut
  have hc : order.countP (fun s => !s.ok) = segments.countP (fun s => !s.ok) :=
    hperm.countP_eq _
  rw [hc]
  by_cases h : 5 * segments.countP (fun s => !s.ok) > segments.length
  · simp [h]
  · simp [h]

/-- On an accepted batch the fan-out returns the collected entries sorted by
index: one entry per input segment (same index multiset), pairwise
nondecreasing indices, strictly increasing when the input indices are
pairwise distinct. -/
lemma fanOut_ok_sorted (success : SegmentStatus) (segments order : List ScriptSegIn)
    (hperm : order.Perm segments) (l : List VideoSeg)
    (h : fanOut success segments order = .ok l) :
    (l.map VideoSeg.index).Perm (segments.map ScriptSegIn.index) ∧
    List.Sorted (· ≤ ·) (l.map VideoSeg.index) ∧
    ((segments.map ScriptSegIn.index).Nodup →
      List.Sorted (· < ·) (l.map VideoSeg.index)) := by
  unfold fanOut at h
  by_cases hth : 5 * order.countP (fun s => !s.ok) > segments.length
  · simp [hth] at h
  · simp only [hth, if_false] at h
    have hl : l = List.insertionSort segLeR (order.map
        (fun s => VideoSeg.mk s.index (if s.ok then success else .failed))) := by
      exact (Except.ok.injEq _ _).mp h.symm
    have hmsperm : l.Perm (order.map
        (fun s => VideoSeg.mk s.index (if s.ok then success else .failed))) := by
      rw [hl]; exact List.perm_insertionSort _ _
    have hidx : (l.map VideoSeg.index).Perm (segments.map ScriptSegIn.index) := by
      have h1 := hmsperm.map VideoSeg.index
      have h2 := (hperm.map ScriptSegIn.index)
      have h3 : ((order.map
          (fun s => VideoSeg.mk s.index (if s.ok then success else .failed))).map VideoSeg.index)
          = order.map ScriptSegIn.index := by
        simp [List.map_map]
      exact (h3 ▸ h1).trans h2
    have hsorted : List.Sorted (· ≤ ·) (l.map VideoSeg.index) := by
      have hpw : List.Pairwise segLeR l := by
        rw [hl]
        exact List.sorted_insertionSort segLeR _
      rw [List.Sorted, List.pairwise_map]
      exact hpw
    refine ⟨hidx, hsorted, fun hnd => ?_⟩
    have hndl : (l.map VideoSeg.index).Nodup := (hidx.symm.nodup hnd)
    have hne : List.Pairwise (fun a b : Nat => a ≠ b) (l.map VideoSeg.index) := hndl
    have := hsorted.and hne
    exact this.imp (fun hab => lt_of_le_of_ne hab.1 hab.2)

/-- C1: For every batch of n >= 1 segments processed by the segment fan-out
(generate_all_segments, generate_images_only, or animate_images_only) in
which f segments fail, the call raises a fatal batch error if and only if f
strictly exceeds 20 percent of n (here f is the number of input segments
whose unit of work fails, and the completion order is any permutation of
the batch). -/
theorem C1_batch_failure_threshold (segments order : List ScriptSegIn)
    (hperm : order.Perm segments) (_hn : 1 ≤ segments.length) :
    ((∃ e, generate_all_segments segments order = .error e) ↔
        5 * segments.countP (fun s => !s.ok) > segments.length) ∧
    ((∃ e, generate_images_only segments order = .error e) ↔
        5 * segments.countP (fun s => !s.ok) > segments.length) ∧
    ((∃ e, animate_images_only segments order = .error e) ↔
        5 * segments.countP (fun s => !s.ok) > segments.length) :=
  ⟨fanOut_error_iff _ _ _ hperm, fanOut_error_iff _ _ _ hperm,
    fanOut_error_iff _ _ _ hperm⟩

/-- Witness for C1 at the acceptance boundary of the spec: a batch of 48
segments with 9 failures is accepted, while 10 failures raise the fatal
batch error. -/
theorem C1_batch_failure_threshold_witness :
    (c1Batch 9).Perm (c1Batch 9) ∧ 1 ≤ (c1Batch 9).length ∧
    ¬ (∃ e, generate_all_segments (c1Batch 9) (c1Batch 9) = .error e) ∧
    (∃ e, generate_all_segments (c1Batch 10) (c1Batch 10) = .error e) := by
  have h9 := C1_batch_failure_threshold (c1Batch 9) (c1Batch 9)
    (List.Perm.refl _) (by decide)
  have h10 := C1_batch_failure_threshold (c1Batch 10) (c1Batch 10)
    (List.Perm.refl _) (by decide)
  exact ⟨List.Perm.refl _, by decide,
    fun hx => absurd (h9.1.mp hx) (by decide), h10.1.mpr (by decide)⟩

/-- C7 counterexample: with an input list whose two segments share index 0
(and a completion order equal to the submission order), the fan-out returns
one entry per input segment, but the returned list is NOT sorted in strictly
ascending order of segment index: both entries carry index 0. -/
theorem C7_sorted_counterexample :
    ([ScriptSegIn.mk 0 true, ScriptSegIn.mk 0 true] : List ScriptSegIn).Perm
      [ScriptSegIn.mk 0 true, ScriptSegIn.mk 0 true] ∧
    generate_all_segments [ScriptSegIn.mk 0 true, ScriptSegIn.mk 0 true]
        [ScriptSegIn.mk 0 true, ScriptSegIn.mk 0 true] =
      .ok [VideoSeg.mk 0 .video_ready, VideoSeg.mk 0 .video_ready] ∧
    ¬ List.Sorted (· < ·)
        (([VideoSeg.mk 0 .video_ready, VideoSeg.mk 0 .video_ready]).map VideoSeg.index) :=
  ⟨List.Perm.refl _, by rfl, by decide⟩

/-- C7 amended: for every input segment list and every completion order of
the parallel workers (including interleavings with failed segments), a list
returned by the segment fan-out contains exactly one result entry per input
segment (the index multisets agree) and is sorted in nondecreasing order of
segment index; the order is strictly ascending whenever the input indices
are pairwise distinct (as they are for every list produced by
split_script). -/
theorem C7_sorted_amended (segments order : List ScriptSegIn)
    (hperm : order.Perm segments) :
    (∀ l, generate_all_segments segments order = .ok l →
      (l.map VideoSeg.index).Perm (segments.map ScriptSegIn.index) ∧
      List.Sorted (· ≤ ·) (l.map VideoSeg.index) ∧
      ((segments.map ScriptSegIn.index).Nodup →
        List.Sorted (· < ·) (l.map VideoSeg.index))) ∧
    (∀ l, generate_images_only segments order = .ok l →
      (l.map VideoSeg.index).Perm (segments.map ScriptSegIn.index) ∧
      List.Sorted (· ≤ ·) (l.map VideoSeg.index) ∧
      ((segments.map ScriptSegIn.index).Nodup →
        List.Sorted (· < ·) (l.map VideoSeg.index))) ∧
    (∀ l, animate_images_only segments order = .ok l →
      (l.map VideoSeg.index).Perm (segments.map ScriptSegIn.index) ∧
      List.Sorted (· ≤ ·) (l.map VideoSeg.index) ∧
      ((segments.map ScriptSegIn.index).Nodup →
        List.Sorted (· < ·) (l.map VideoSeg.index))) :=
  ⟨fun l h => fanOut_ok_sorted _ _ _ hperm l h,
   fun l h => fanOut_ok_sorted _ _ _ hperm l h,
   fun l h => fanOut_ok_sorted _ _ _ hperm l h⟩

/-- Witness for the amended C7: a batch of six distinct-index segments, one
of which fails, completed out of order, yields one entry per input segment
in strictly ascending index order. -/
theorem C7_sorted_amended_witness :
    ([ScriptSegIn.mk 5 true, ScriptSegIn.mk 4 true, ScriptSegIn.mk 2 false,
      ScriptSegIn.mk 0 true, ScriptSegIn.mk 1 true, ScriptSegIn.mk 3 true] : List ScriptSegIn).Perm
      [ScriptSegIn.mk 0 true, ScriptSegIn.mk 1 true, ScriptSegIn.mk 2 false,
       ScriptSegIn.mk 3 true, ScriptSegIn.mk 4 true, ScriptSegIn.mk 5 true] ∧
    generate_all_segments
      [ScriptSegIn.mk 0 true, ScriptSegIn.mk 1 true, ScriptSegIn.mk 2 false,
       ScriptSegIn.mk 3 true, ScriptSegIn.mk 4 true, ScriptSegIn.mk 5 true]
      [ScriptSegIn.mk 5 true, ScriptSegIn.mk 4 true, ScriptSegIn.mk 2 false,
       ScriptSegIn.mk 0 true, ScriptSegIn.mk 1 true, ScriptSegIn.mk 3 true] =
      .ok [VideoSeg.mk 0 .video_ready, VideoSeg.mk 1 .video_ready,
           VideoSeg.mk 2 .failed, VideoSeg.mk 3 .video_ready,
           VideoSeg.mk 4 .video_ready, VideoSeg.mk 5 .video_ready] ∧
    List.Sorted (· < ·)
      (([VideoSeg.mk 0 .video_ready, VideoSeg.mk 1 .video_ready,
         VideoSeg.mk 2 .failed, VideoSeg.mk 3 .video_ready,
         VideoSeg.mk 4 .video_ready, VideoSeg.mk 5 .video_ready]).map VideoSeg.index) := by
  have h := (C7_sorted_amended
    [ScriptSegIn.mk 0 true, ScriptSegIn.mk 1 true, ScriptSegIn.mk 2 false,
     ScriptSegIn.mk 3 true, ScriptSegIn.mk 4 true, ScriptSegIn.mk 5 true]
    [ScriptSegIn.mk 5 true, ScriptSegIn.mk 4 true, ScriptSegIn.mk 2 false,
     ScriptSegIn.mk 0 true, ScriptSegIn.mk 1 true, ScriptSegIn.mk 3 true]
    (by decide)).1
    [VideoSeg.mk 0 .video_ready, VideoSeg.mk 1 .video_ready,
     VideoSeg.mk 2 .failed, VideoSeg.mk 3 .video_ready,
     VideoSeg.mk 4 .video_ready, VideoSeg.mk 5 .video_ready] (by rfl)
  exact ⟨by decide, by rfl, h.2.2 (by decide)⟩

/-- The fueled first chaining loop computes the spec loop whenever the fuel
satisfies factor ≤ 2 ^ fuel. -/
lemma halveLoop_eq_spec : ∀ (fuel : Nat) (f : ℚ), f ≤ 2 ^ fuel →
    halveLoop fuel f = specHalve f := by
  intro fuel
  induction fuel with
  | zero =>
    intro f hle
    rw [pow_zero] at hle
    have h2 : ¬ 2 < f := by linarith
    rw [specHalve]
    simp [halveLoop, h2]
  | succ n ih =>
    intro f hle
    rw [specHalve]
    by_cases h2 : 2 < f
    · have harg : f / 2 ≤ 2 ^ n := by
        rw [pow_succ] at hle
        linarith
      simp only [halveLoop, h2, if_true, dif_pos]
      rw [ih _ harg]
    · simp [halveLoop, h2]

/-- The fueled second chaining loop computes the spec loop whenever the fuel
satisfies 1 ≤ factor * 2 ^ fuel. -/
lemma doubleLoop_eq_spec : ∀ (fuel : Nat) (f : ℚ), 0 < f → 1 ≤ f * 2 ^ fuel →
    doubleLoop fuel f = specDouble f := by
  intro fuel
  induction fuel with
  | zero =>
    intro f _ hle
    rw [pow_zero, mul_one] at hle
    rw [specDouble]
    show ([], f) = _
    split_ifs with hc
    · exact absurd hle (by linarith [hc.2])
    · rfl
  | succ n ih =>
    intro f hf hle
    rw [specDouble]
    show (if f < 1/2 then
        ((1/2) :: (doubleLoop n (f / (1/2))).1, (doubleLoop n (f / (1/2))).2)
      else ([], f)) = _
    by_cases h2 : f < 1/2
    · rw [if_pos h2, dif_pos ⟨hf, h2⟩]
      have harg : 0 < f / (1/2) := by positivity
      have hfuel : 1 ≤ (f / (1/2)) * 2 ^ n := by
        have hh : f / (1/2) * 2 ^ n = f * 2 ^ (n+1) := by
          rw [pow_succ]; ring
        rw [hh]
        exact hle
      rw [ih _ harg hfuel]
    · rw [if_neg h2, dif_neg (fun hc => h2 hc.2)]

/-- Every positive rational is bounded by 2 to the power of its numerator. -/
lemma rat_le_two_pow_num (f : ℚ) (hf : 0 < f) : f ≤ 2 ^ f.num.toNat := by
  have hnum : 0 < f.num := Rat.num_pos.mpr hf
  have h1 : f ≤ (f.num : ℚ) := by
    conv_lhs => rw [← Rat.num_div_den f]
    apply div_le_self (by positivity)
    exact_mod_cast Nat.one_le_iff_ne_zero.mpr f.den_nz
  have hcast : (f.num.toNat : ℚ) = (f.num : ℚ) := by
    exact_mod_cast Int.toNat_of_nonneg hnum.le
  have h2 : (f.num : ℚ) ≤ 2 ^ f.num.toNat := by
    rw [← hcast]
    calc (f.num.toNat : ℚ) ≤ ((2 ^ f.num.toNat : ℕ) : ℚ) := by
          exact_mod_cast (Nat.lt_two_pow f.num.toNat).le
      _ = 2 ^ f.num.toNat := by push_cast; ring
  linarith

/-- Multiplying a positive rational by 2 to the power of its denominator
brings it at least to 1. -/
lemma one_le_mul_two_pow_den (f : ℚ) (hf : 0 < f) : 1 ≤ f * 2 ^ f.den := by
  have hnum : (1:ℚ) ≤ (f.num : ℚ) := by exact_mod_cast Rat.num_pos.mpr hf
  have hden : (0:ℚ) < (f.den : ℚ) := by exact_mod_cast f.pos
  have hpow : (f.den : ℚ) ≤ 2 ^ f.den := by
    calc (f.den : ℚ) ≤ ((2 ^ f.den : ℕ) : ℚ) := by
          exact_mod_cast (Nat.lt_two_pow f.den).le
      _ = 2 ^ f.den := by push_cast; ring
  have h1 : (1:ℚ) / (f.den : ℚ) ≤ f := by
    conv_rhs => rw [← Rat.num_div_den f]
    exact (div_le_div_iff_of_pos_right hden).mpr hnum
  have h2 : (1:ℚ) / (f.den : ℚ) * (f.den : ℚ) = 1 := by
    field_simp
  calc (1:ℚ) = (1:ℚ) / (f.den : ℚ) * (f.den : ℚ) := h2.symm
    _ ≤ f * 2 ^ f.den := by
        apply mul_le_mul h1 hpow hden.le hf.le

/-- The remaining factor of the first spec loop stays positive. -/
lemma specHalve_pos : ∀ (f : ℚ), 0 < f → 0 < (specHalve f).2 := by
  intro f
  induction f using specHalve.induct with
  | case1 g h ih =>
    intro _
    rw [specHalve, dif_pos h]
    exact ih (by positivity)
  | case2 g h =>
    intro hg
    rw [specHalve, dif_neg h]
    exact hg

/-- The fuel used by atempo_filters is always sufficient on positive
factors, so the emitted chain is exactly the chain described by the spec
loops. -/
lemma atempo_filters_eq_spec (f : ℚ) (hf : 0 < f) :
    atempo_filters f = specTempoSteps f := by
  simp only [atempo_filters, specTempoSteps]
  rw [halveLoop_eq_spec _ f (rat_le_two_pow_num f hf)]
  have hpos := specHalve_pos f hf
  rw [doubleLoop_eq_spec _ _ hpos (one_le_mul_two_pow_den _ hpos)]

/-- C2: For actual duration A > 0 and target T > 0, no tempo adjustment is
performed iff the difference from the target is at most 1.0 second; when an
adjustment is performed, the emitted ordered tempo-step list is exactly the
list obtained from factor = A / T by the spec algorithm: while factor > 2.0
append a 2.0 step and divide by 2.0, while factor < 0.5 append a 0.5 step
and divide by 0.5, finally append the remaining factor if it differs from
1.0. -/
theorem C2_audio_duration_matcher (A T : ℚ) (hA : 0 < A) (hT : 0 < T) :
    (generate_audio_adjusts A T = false ↔ |A - T| ≤ 1) ∧
    adjust_audio_filters A T = specTempoSteps (A / T) := by
  constructor
  · simp only [generate_audio_adjusts, decide_eq_false_iff_not, not_lt]
  · exact atempo_filters_eq_spec _ (div_pos hA hT)

/-- Witness for C2 at the spec examples: A = 10, T = 4 gives the factor 2.5
and the two chained steps 2.0 then 1.25; A = 3.9, T = 4 is within the 1.0
second tolerance and performs no adjustment. -/
theorem C2_audio_duration_matcher_witness :
    (0:ℚ) < 10 ∧ (0:ℚ) < 4 ∧
    (generate_audio_adjusts 10 4 = false ↔ |(10:ℚ) - 4| ≤ 1) ∧
    adjust_audio_filters 10 4 = specTempoSteps (10 / 4) ∧
    adjust_audio_filters 10 4 = [2, 5/4] ∧
    generate_audio_adjusts 10 4 = true ∧
    generate_audio_adjusts (39/10) 4 = false := by
  have h := C2_audio_duration_matcher 10 4 (by norm_num) (by norm_num)
  have e1 : specHalve ((10:ℚ) / 4) = ([2], 5/4) := by
    rw [specHalve, dif_pos (by norm_num : (2:ℚ) < 10/4)]
    rw [specHalve, dif_neg (by norm_num : ¬ (2:ℚ) < 10/4/2)]
    norm_num
  have e2 : specDouble ((5:ℚ)/4) = ([], 5/4) := by
    rw [specDouble, dif_neg (by norm_num : ¬ ((0:ℚ) < 5/4 ∧ (5:ℚ)/4 < 1/2))]
  have e3 : specTempoSteps ((10:ℚ) / 4) = [2, 5/4] := by
    simp only [specTempoSteps, e1, e2]
    norm_num
  have e4 : adjust_audio_filters 10 4 = [2, 5/4] := h.2.trans e3
  have e5 : |(10:ℚ) - 4| = 6 := by
    rw [abs_of_nonneg (by norm_num : (0:ℚ) ≤ 10 - 4)]
    norm_num
  have e6 : generate_audio_adjusts 10 4 = true := by
    simp only [generate_audio_adjusts, decide_eq_true_eq, e5]
    norm_num
  have e7 : generate_audio_adjusts (39/10) 4 = false := by
    simp only [generate_audio_adjusts, decide_eq_false_iff_not, not_lt]
    rw [abs_of_nonpos (by norm_num : (39:ℚ)/10 - 4 ≤ 0)]
    norm_num
  exact ⟨by norm_num, by norm_num, h.1, h.2, e4, e6, e7⟩

/-- C3: For every maximum size Smax (MB) and probed duration Dur > 0 (s),
the compression planner computes the target video bitrate as
max(floor(Smax * 8192 / Dur) - 128, 500) kbps; in particular the clamp
guarantees the result is never below 500. -/
theorem C3_compression_bitrate (smax : ℕ) (dur : ℚ) (hd : 0 < dur) :
    compress_target_bitrate smax dur =
      max (⌊((smax : ℚ) * 8192) / dur⌋ - 128) 500 ∧
    500 ≤ compress_target_bitrate smax dur := by
  have hq : 0 ≤ ((smax : ℚ) * 8192) / dur := by positivity
  have hpy : pyInt (((smax : ℚ) * 8192) / dur) = ⌊((smax : ℚ) * 8192) / dur⌋ := by
    unfold pyInt
    rw [if_neg (not_lt.mpr hq)]
  refine ⟨?_, ?_⟩
  · unfold compress_target_bitrate
    rw [hpy]
  · unfold compress_target_bitrate
    exact le_max_right _ _

/-- Witness for C3 at the spec examples: Smax = 50 MB, Dur = 240 s gives
floor(409600/240) - 128 = 1578 kbps, and Smax = 1 MB, Dur = 240 s clamps to
500 kbps instead of the negative raw value -94. -/
theorem C3_compression_bitrate_witness :
    (0:ℚ) < 240 ∧
    compress_target_bitrate 50 240 = 1578 ∧
    compress_target_bitrate 1 240 = 500 := by
  have h50 := C3_compression_bitrate 50 240 (by norm_num)
  have h1 := C3_compression_bitrate 1 240 (by norm_num)
  have f50 : ⌊(((50:ℕ) : ℚ) * 8192) / 240⌋ = 1706 :=
    Int.floor_eq_iff.mpr (by constructor <;> norm_num)
  have f1 : ⌊(((1:ℕ) : ℚ) * 8192) / 240⌋ = 34 :=
    Int.floor_eq_iff.mpr (by constructor <;> norm_num)
  refine ⟨by norm_num, ?_, ?_⟩
  · rw [h50.1, f50]
    norm_num
  · rw [h1.1, f1]
    norm_num

/-- C5 counterexample: a muxed file of 60 MB against a 50 MB limit is
compressed once, the compressed result is still oversized (55 MB > 50 MB),
and yet the pipeline returns the compressed path successfully instead of
reporting a fatal assembly error. -/
theorem C5_oversized_compressed_counterexample :
    (50:ℚ) < 55 ∧
    assemble_final_video (AssemblyEnv.mk true 60 55 50) = .ok (.compressedVideo, 1) := by
  refine ⟨by norm_num, ?_⟩
  unfold assemble_final_video
  rw [if_neg (by simp), if_pos (by norm_num : (50:ℚ) < 60)]

/-- C5 amended: when the assembled (concatenated and muxed) file exceeds
Smax, compression is attempted exactly once and the compressed file is
returned without re-checking its size (the result does not depend on the
compressed size at all, so an oversized compressed file is delivered rather
than reported as a fatal error, and no progressively-lower-bitrate retries
occur); when the assembled file does not exceed Smax no compression
occurs. -/
theorem C5_single_compression_amended (env : AssemblyEnv)
    (hv : env.has_video_paths = true) :
    (env.max_video_size_mb < env.final_size_mb →
      assemble_final_video env = .ok (.compressedVideo, 1)) ∧
    (¬ env.max_video_size_mb < env.final_size_mb →
      assemble_final_video env = .ok (.finalVideo, 0)) ∧
    (∀ c : ℚ,
      assemble_final_video { env with compressed_size_mb := c } =
        assemble_final_video env) := by
  refine ⟨fun h => ?_, fun h => ?_, fun _ => rfl⟩
  · unfold assemble_final_video
    rw [hv, if_neg (by simp), if_pos h]
  · unfold assemble_final_video
    rw [hv, if_neg (by simp), if_neg h]

/-- Witness for the amended C5: the 60 MB muxed file against the 50 MB
limit is compressed exactly once and the compressed path is returned. -/
theorem C5_single_compression_amended_witness :
    (AssemblyEnv.mk true 60 55 50).has_video_paths = true ∧
    ((AssemblyEnv.mk true 60 55 50).max_video_size_mb <
      (AssemblyEnv.mk true 60 55 50).final_size_mb) ∧
    assemble_final_video (AssemblyEnv.mk true 60 55 50) = .ok (.compressedVideo, 1) := by
  have h := C5_single_compression_amended (AssemblyEnv.mk true 60 55 50) rfl
  exact ⟨rfl, by norm_num, h.1 (by norm_num)⟩

/-- C4 records a code bug: for every run in which all three approval waits
return approved and both segment batches have zero failures, the task does
NOT reach Completed. Line 474 evaluates int(total_duration) while sending
the final video, but the local total_duration is first assigned only at
line 496, so the success path raises UnboundLocalError before the send; the
outer handler reports an error and the final video is never delivered. The
claim describes the intended behavior the code fails to implement. -/
theorem C4_success_path_never_completes (env : TaskEnv)
    (hs : env.script_approved = true) (hi : env.images_approved = true)
    (hv : env.videos_approved = true) (hif : env.image_failures = 0)
    (haf : env.anim_failures = 0) :
    (generate_video_task env).1 = .error_raised .unbound_local_total_duration ∧
    (generate_video_task env).1 ≠ .completed ∧
    Action.send_final_video ∉ (generate_video_task env).2 := by
  simp [generate_video_task, hs, hi, hv, hif, haf]

/-- Witness for C4: the fully approved, failure-free run raises the
unbound-local error instead of completing. -/
theorem C4_success_path_never_completes_witness :
    (generate_video_task (TaskEnv.mk true true true 48 0 0)).1 =
      .error_raised .unbound_local_total_duration ∧
    (generate_video_task (TaskEnv.mk true true true 48 0 0)).1 ≠ .completed ∧
    Action.send_final_video ∉ (generate_video_task (TaskEnv.mk true true true 48 0 0)).2 :=
  C4_success_path_never_completes (TaskEnv.mk true true true 48 0 0)
    rfl rfl rfl rfl rfl

/-- C6: for every run whose script approval wait returns rejected or timed
out, the task returns the cancelled result at the script stage, performs
exactly one cleanup of the working storage, notifies the user (the
CANCELLED status update and the error message), and never invokes the
image-generation, animation, audio, or assembly stages. -/
theorem C6_script_rejection_cancels (env : TaskEnv)
    (hs : env.script_approved = false) :
    (generate_video_task env).1 = .cancelled "script_approval" ∧
    (generate_video_task env).2.count Action.cleanup = 1 ∧
    Action.notify_status .cancelled ∈ (generate_video_task env).2 ∧
    Action.notify_error ∈ (generate_video_task env).2 ∧
    Action.gen_images ∉ (generate_video_task env).2 ∧
    Action.animate ∉ (generate_video_task env).2 ∧
    Action.gen_audio ∉ (generate_video_task env).2 ∧
    Action.assemble ∉ (generate_video_task env).2 ∧
    Action.send_final_video ∉ (generate_video_task env).2 := by
  simp [generate_video_task, hs]

/-- Witness for C6: the run whose script approval fails is cancelled with
one cleanup and no later stage. -/
theorem C6_script_rejection_cancels_witness :
    (generate_video_task (TaskEnv.mk false true true 48 0 0)).1 =
      .cancelled "script_approval" ∧
    (generate_video_task (TaskEnv.mk false true true 48 0 0)).2.count Action.cleanup = 1 ∧
    Action.notify_status .cancelled ∈ (generate_video_task (TaskEnv.mk false true true 48 0 0)).2 ∧
    Action.notify_error ∈ (generate_video_task (TaskEnv.mk false true true 48 0 0)).2 ∧
    Action.gen_images ∉ (generate_video_task (TaskEnv.mk false true true 48 0 0)).2 ∧
    Action.animate ∉ (generate_video_task (TaskEnv.mk false true true 48 0 0)).2 ∧
    Action.gen_audio ∉ (generate_video_task (TaskEnv.mk false true true 48 0 0)).2 ∧
    Action.assemble ∉ (generate_video_task (TaskEnv.mk false true true 48 0 0)).2 ∧
    Action.send_final_video ∉ (generate_video_task (TaskEnv.mk false true true 48 0 0)).2 :=
  C6_script_rejection_cancels (TaskEnv.mk false true true 48 0 0) rfl

/-- Filtering with a predicate implied by the search predicate does not
change the result of find?. -/
lemma find?_filter_of_imp {α : Type} (p q : α → Bool) (l : List α)
    (h : ∀ a, p a = true → q a = true) :
    (l.filter q).find? p = l.find? p := by
  induction l with
  | nil => rfl
  | cons a t ih =>
    by_cases hqa : q a = true
    · rw [List.filter_cons_of_pos hqa]
      by_cases hp : p a = true
      · rw [List.find?_cons_of_pos _ hp, List.find?_cons_of_pos _ hp]
      · rw [List.find?_cons_of_neg _ hp, List.find?_cons_of_neg _ hp, ih]
    · rw [List.filter_cons_of_neg hqa]
      have hp : ¬ p a = true := fun hpa => hqa (h a hpa)
      rw [List.find?_cons_of_neg _ hp, ih]

/-- Deleting all records the reads treat as absent does not change the
result of the shared query. -/
lemma queryApproval_purge (store : List ApprovalRec) (job ty : String) (now : ℚ) :
    queryApproval (purgeExpiredReads now store) job ty now =
      queryApproval store job ty now := by
  unfold queryApproval purgeExpiredReads
  apply find?_filter_of_imp
  intro a ha
  simp only [decide_eq_true_eq] at ha ⊢
  exact ha.2.2

/-- C8: every read treats a record whose expiry is not strictly later than
the current time as absent. First, when every matching record is expired,
is_approved returns none (no decision). Second, deleting all expired
records from every polled table state never changes the value returned by
wait_for_approval, so no decision is ever based on an expired record.
Third, when every matching record is expired at every poll, the wait keeps
polling and returns false by timeout. -/
theorem C8_expired_records_absent (job ty : String) (timeout : ℚ) :
    (∀ (store : List ApprovalRec) (now : ℚ),
      (∀ r ∈ store, r.job_id = job → r.approval_type = ty → r.expires_at ≤ now) →
      is_approved store job ty now = none) ∧
    (∀ obs : List PollObs,
      wait_for_approval timeout job ty
        (obs.map (fun o => PollObs.mk o.elapsed o.now (purgeExpiredReads o.now o.store))) =
      wait_for_approval timeout job ty obs) ∧
    (∀ obs : List PollObs,
      (∀ o ∈ obs, ∀ r ∈ o.store,
        r.job_id = job → r.approval_type = ty → r.expires_at ≤ o.now) →
      wait_for_approval timeout job ty obs = false) := by
  have hq : ∀ (store : List ApprovalRec) (now : ℚ),
      (∀ r ∈ store, r.job_id = job → r.approval_type = ty → r.expires_at ≤ now) →
      queryApproval store job ty now = none := by
    intro store now h
    apply List.find?_eq_none.mpr
    intro r hr
    simp only [decide_eq_true_eq, not_and]
    intro hjob hty
    exact not_lt.mpr (h r hr hjob hty)
  refine ⟨?_, ?_, ?_⟩
  · intro store now h
    unfold is_approved
    rw [hq store now h]
  · intro obs
    induction obs with
    | nil => rfl
    | cons o rest ih =>
      simp only [List.map_cons, wait_for_approval]
      rw [queryApproval_purge]
      by_cases ht : timeout ≤ o.elapsed
      · rw [if_pos ht, if_pos ht]
      · rw [if_neg ht, if_neg ht]
        cases hqr : queryApproval o.store job ty o.now with
        | none => simpa using ih
        | some r =>
          by_cases h1 : r.status = "approved"
          · simp [h1]
          · by_cases h2 : r.status = "cancelled"
            · simp [h1, h2]
            · simpa [h1, h2] using ih
  · intro obs
    induction obs with
    | nil => intro _; rfl
    | cons o rest ih =>
      intro h
      simp only [wait_for_approval]
      rw [hq o.store o.now (h o (List.mem_cons_self o rest))]
      by_cases ht : timeout ≤ o.elapsed
      · rw [if_pos ht]
      · rw [if_neg ht]
        exact ih (fun o2 ho2 => h o2 (List.mem_cons_of_mem _ ho2))

/-- Witness for C8: a record for job j, stage script, approved, whose
expiry 5 equals the current time, is treated as absent: is_approved sees no
decision, purging it does not change the wait, and a two-poll trace over
the expired record times out with false. -/
theorem C8_expired_records_absent_witness :
    is_approved [ApprovalRec.mk "j" "script" "approved" 5] "j" "script" 5 = none ∧
    wait_for_approval 600 "j" "script"
      (([PollObs.mk 0 5 [ApprovalRec.mk "j" "script" "approved" 5],
         PollObs.mk 2 7 [ApprovalRec.mk "j" "script" "approved" 5]]).map
        (fun o => PollObs.mk o.elapsed o.now (purgeExpiredReads o.now o.store))) =
      wait_for_approval 600 "j" "script"
        [PollObs.mk 0 5 [ApprovalRec.mk "j" "script" "approved" 5],
         PollObs.mk 2 7 [ApprovalRec.mk "j" "script" "approved" 5]] ∧
    wait_for_approval 600 "j" "script"
      [PollObs.mk 0 5 [ApprovalRec.mk "j" "script" "approved" 5],
       PollObs.mk 2 7 [ApprovalRec.mk "j" "script" "approved" 5]] = false := by
  have h := C8_expired_records_absent "j" "script" 600
  exact ⟨h.1 [ApprovalRec.mk "j" "script" "approved" 5] 5 (by decide),
    h.2.1 [PollObs.mk 0 5 [ApprovalRec.mk "j" "script" "approved" 5],
      PollObs.mk 2 7 [ApprovalRec.mk "j" "script" "approved" 5]],
    h.2.2 [PollObs.mk 0 5 [ApprovalRec.mk "j" "script" "approved" 5],
      PollObs.mk 2 7 [ApprovalRec.mk "j" "script" "approved" 5]] (by decide)⟩

/-- The padding loop terminates with a result whenever the chunk list is
non-empty: every iteration appends at least one element, so fuel bounding
the missing length suffices. -/
lemma padChunksF_some {α : Type} : ∀ (fuel n : Nat) (chunks : List α),
    chunks ≠ [] → n - chunks.length ≤ fuel →
    ∃ l, padChunksF fuel n chunks = some l := by
  intro fuel
  induction fuel with
  | zero =>
    intro n chunks hne hle
    have hlen : ¬ chunks.length < n := by omega
    exact ⟨chunks, by simp [padChunksF, hlen]⟩
  | succ fuel ih =>
    intro n chunks hne hle
    by_cases hlt : chunks.length < n
    · have hemp : chunks.isEmpty = false := by
        simpa [List.isEmpty_iff] using hne
      have hpos : 0 < chunks.length := List.length_pos.mpr hne
      have hge : 1 ≤ (chunks.take (n - chunks.length)).length := by
        rw [List.length_take]
        exact le_inf (by omega) (by omega)
      have hne2 : chunks ++ chunks.take (n - chunks.length) ≠ [] := by
        intro hcc
        exact hne (List.append_eq_nil.mp hcc).1
      have hfuel2 : n - (chunks ++ chunks.take (n - chunks.length)).length ≤ fuel := by
        rw [List.length_append]
        omega
      obtain ⟨l, hl⟩ := ih n _ hne2 hfuel2
      exact ⟨l, by simp [padChunksF, hlt, hemp, hl]⟩
    · exact ⟨chunks, by simp [padChunksF, hlt]⟩

/-- C9: whenever split_script returns a list, that list has exactly
N = target_duration // segment_duration elements, and the element at
position i carries index i, start_time = i * D and end_time = (i + 1) * D,
so the index values are exactly 0..N-1 in order and the [start, end)
intervals tile [0, N * D) without gaps or overlaps. -/
theorem C9_segment_tiling (td sd : Nat) (script : List Char)
    (h : (split_script td sd script).isSome = true) :
    ((split_script td sd script).getD []).length = td / sd ∧
    ∀ i : Nat, i < td / sd →
      (((split_script td sd script).getD []).getD i
          (ScriptSegment.mk 0 [] 0 0 [] [])).index = i ∧
      (((split_script td sd script).getD []).getD i
          (ScriptSegment.mk 0 [] 0 0 [] [])).start_time = i * sd ∧
      (((split_script td sd script).getD []).getD i
          (ScriptSegment.mk 0 [] 0 0 [] [])).end_time = (i + 1) * sd := by
  rcases hp : padChunks (td / sd) (computeChunks (td / sd) (pyStrip script)) with _ | chunks
  · have hnone : split_script td sd script = none := by
      simp [split_script, hp]
    rw [hnone] at h
    simp at h
  · have hs : split_script td sd script =
        some ((List.range (td / sd)).map (buildSegment sd (td / sd) chunks)) := by
      simp [split_script, hp]
    rw [hs]
    simp only [Option.getD_some]
    constructor
    · rw [List.length_map, List.length_range]
    · intro i hi
      have hget : ((List.range (td / sd)).map (buildSegment sd (td / sd) chunks)).getD i
          (ScriptSegment.mk 0 [] 0 0 [] []) = buildSegment sd (td / sd) chunks i := by
        rw [List.getD_eq_getElem?_getD, List.getElem?_map, List.getElem?_range hi]
        rfl
      rw [hget]
      refine ⟨rfl, rfl, ?_⟩
      show i * sd + sd = (i + 1) * sd
      rw [Nat.succ_mul]

/-- Witness for C9: split_script with target 10 and segment length 5 on a
two-sentence script returns exactly two segments with indices 0 and 1 and
intervals [0,5) and [5,10). -/
theorem C9_segment_tiling_witness :
    (split_script 10 5 ("Hello. World.".toList)).isSome = true ∧
    ((split_script 10 5 ("Hello. World.".toList)).getD []).length = 10 / 5 ∧
    ((((split_script 10 5 ("Hello. World.".toList)).getD []).getD 0
        (ScriptSegment.mk 0 [] 0 0 [] [])).index = 0 ∧
      (((split_script 10 5 ("Hello. World.".toList)).getD []).getD 0
        (ScriptSegment.mk 0 [] 0 0 [] [])).start_time = 0 * 5 ∧
      (((split_script 10 5 ("Hello. World.".toList)).getD []).getD 0
        (ScriptSegment.mk 0 [] 0 0 [] [])).end_time = (0 + 1) * 5) ∧
    ((((split_script 10 5 ("Hello. World.".toList)).getD []).getD 1
        (ScriptSegment.mk 0 [] 0 0 [] [])).index = 1 ∧
      (((split_script 10 5 ("Hello. World.".toList)).getD []).getD 1
        (ScriptSegment.mk 0 [] 0 0 [] [])).start_time = 1 * 5 ∧
      (((split_script 10 5 ("Hello. World.".toList)).getD []).getD 1
        (ScriptSegment.mk 0 [] 0 0 [] [])).end_time = (1 + 1) * 5) := by
  have h := C9_segment_tiling 10 5 ("Hello. World.".toList) (by decide)
  exact ⟨by decide, h.1, h.2 0 (by norm_num), h.2 1 (by norm_num)⟩

/-- C10: split_script terminates with exactly N segments for every script
whose chunk computation yields at least one non-empty chunk; the
precondition is necessary: for a script with no non-whitespace content
between sentence delimiters (the empty string shown concretely, and the
whitespace-only string as well) the chunk list is empty, the padding loop
extends the list with a slice of itself without progress, and split_script
does not terminate (modelled by none). -/
theorem C10_split_script_termination (td sd : Nat) (script : List Char)
    (hch : computeChunks (td / sd) (pyStrip script) ≠ []) :
    ((split_script td sd script).isSome = true ∧
      ((split_script td sd script).getD []).length = td / sd) ∧
    (computeChunks (240 / 5) (pyStrip ("".toList)) = [] ∧
      padChunks (240 / 5) (computeChunks (240 / 5) (pyStrip ("".toList))) = none ∧
      split_script 240 5 ("".toList) = none ∧
      computeChunks (240 / 5) (pyStrip ("  \n ".toList)) = [] ∧
      split_script 240 5 ("  \n ".toList) = none) := by
  constructor
  · obtain ⟨l, hl⟩ := padChunksF_some (td / sd) (td / sd)
      (computeChunks (td / sd) (pyStrip script)) hch (Nat.sub_le _ _)
    have hp : padChunks (td / sd) (computeChunks (td / sd) (pyStrip script)) = some l := hl
    have hs : split_script td sd script =
        some ((List.range (td / sd)).map (buildSegment sd (td / sd) l)) := by
      simp [split_script, hp]
    rw [hs]
    simp [List.length_map, List.length_range]
  · exact ⟨by decide, by decide, by decide, by decide, by decide⟩

/-- Witness for C10: the two-sentence script has a non-empty chunk list and
split_script with the default parameters (240 s target, 5 s segments)
terminates with 48 segments. -/
theorem C10_split_script_termination_witness :
    computeChunks (240 / 5) (pyStrip ("Hello. World.".toList)) ≠ [] ∧
    (split_script 240 5 ("Hello. World.".toList)).isSome = true ∧
    ((split_script 240 5 ("Hello. World.".toList)).getD []).length = 240 / 5 := by
  have h := C10_split_script_termination 240 5 ("Hello. World.".toList) (by decide)
  exact ⟨by decide, h.1.1, h.1.2⟩

end VideoBot
